import Mathlib

/-!
Verification of the Eglinton Crosstown delay-tracker core
(`src/App.tsx`): the calendar-breakdown calculator
`calculateBreakdown`, the month-addition helper `addMonthsClamped`,
and the overrun-percentage calculator `calculateOverrunPercent`.

The JavaScript `Date` values the source manipulates are modelled as
civil date-times in the proleptic Gregorian calendar under a fixed
UTC offset (the app pins its reference constants to -05:00): a month
index (year * 12 + month), a day of month, and a millisecond offset
within the day.  Days are uniformly 86 400 000 ms long.  `getTime`
is the millisecond count from the Unix epoch, built from cumulative
Gregorian month lengths anchored at 1970-01-01.  JavaScript number
arithmetic on these millisecond quantities is modelled exactly
(integers for millisecond values, rationals for the percentage);
`Math.floor(a / b)` with a positive literal divisor is `Int.fdiv`,
and the JavaScript remainder `%` is `Int.tmod`.
-/

/-- Milliseconds per minute, as in the source (`60 * 1000`). -/
def minuteMs : Int := 60 * 1000

/-- Milliseconds per hour, as in the source (`60 * 60 * 1000`). -/
def hourMs : Int := 60 * 60 * 1000

/-- Milliseconds per day, as in the source (`24 * 60 * 60 * 1000`). -/
def dayMs : Int := 24 * 60 * 60 * 1000

/-- Gregorian leap-year rule (the calendar JavaScript `Date` implements). -/
def isLeap (y : Int) : Bool := (y % 4 == 0 && y % 100 != 0) || y % 400 == 0

/-- Number of days in Gregorian year `y`. -/
def daysInYear (y : Int) : Int := if isLeap y then 366 else 365

/-- Number of days in month `m` (0-based, January = 0) of year `y`.
The catch-all branch is never reached for `m ≤ 11`. -/
def monthLength (y : Int) : Nat → Nat
  | 0 => 31
  | 1 => if isLeap y then 29 else 28
  | 2 => 31
  | 3 => 30
  | 4 => 31
  | 5 => 30
  | 6 => 31
  | 7 => 31
  | 8 => 30
  | 9 => 31
  | 10 => 30
  | _ => 31

/-- Days from 1970-01-01 up to January 1 of year `1970 + n`. -/
def upDays : Nat → Int
  | 0 => 0
  | n + 1 => upDays n + daysInYear (1970 + n)

/-- Days from January 1 of year `1970 - n` up to 1970-01-01. -/
def downDays : Nat → Int
  | 0 => 0
  | n + 1 => downDays n + daysInYear (1969 - (n : Int))

/-- Epoch day number (days since 1970-01-01) of January 1 of year `y`. -/
def yearStartDay (y : Int) : Int :=
  if 1970 ≤ y then upDays (y - 1970).toNat else - downDays (1970 - y).toNat

/-- Days from January 1 of year `y` up to the first of month `m` (0-based). -/
def monthOffset (y : Int) : Nat → Int
  | 0 => 0
  | m + 1 => monthOffset y m + monthLength y m

/-- Length, in days, of the month with month index `mi` (month index =
year * 12 + 0-based month, the quantity JavaScript `setMonth` works with). -/
def monthLen (mi : Int) : Int := monthLength (mi / 12) (mi % 12).toNat

/-- Epoch day number of the first day of the month with month index `mi`. -/
def monthStartDay (mi : Int) : Int :=
  yearStartDay (mi / 12) + monthOffset (mi / 12) (mi % 12).toNat

/-- A JavaScript `Date` under a fixed UTC offset: month index
(year * 12 + 0-based month), 1-based day of month, and milliseconds
elapsed since local midnight. -/
structure CivilDate where
  monthIndex : Int
  day : Int
  todMs : Int
deriving DecidableEq, Repr

/-- The date is calendar-valid: the day exists in its month and the
time of day is inside one day. -/
def CivilDate.Valid (d : CivilDate) : Prop :=
  1 ≤ d.day ∧ d.day ≤ monthLen d.monthIndex ∧ 0 ≤ d.todMs ∧ d.todMs < dayMs

instance (d : CivilDate) : Decidable d.Valid := by
  unfold CivilDate.Valid; infer_instance

/-- `Date.prototype.getTime`: milliseconds since the Unix epoch. -/
def CivilDate.getTime (d : CivilDate) : Int :=
  (monthStartDay d.monthIndex + d.day - 1) * dayMs + d.todMs

/-- Convenience constructor from year, 0-based month, day and
hour/minute/second components. -/
def mkDate (y : Int) (m : Int) (d : Int) (hh mm ss : Int) : CivilDate :=
  ⟨y * 12 + m, d, ((hh * 60 + mm) * 60 + ss) * 1000⟩

/-- The `TimeBreakdown` record of the source. -/
structure TimeBreakdown where
  years : Int
  months : Int
  days : Int
  hours : Int
  minutes : Int
  seconds : Int
deriving DecidableEq, Repr

/-- The all-zero breakdown returned on the `now <= startDate` branch. -/
def zeroBreakdown : TimeBreakdown := ⟨0, 0, 0, 0, 0, 0⟩

/-- `addMonthsClamped` from the source.  The source copies `date`,
remembers `originalDay = next.getDate()`, moves to day 1, calls
`next.setMonth(next.getMonth() + monthsToAdd)` (on day 1 this lands
exactly `monthsToAdd` month indices later, with year carry), reads the
last day of the target month via `new Date(y, m + 1, 0).getDate()`,
and sets the day to `Math.min(originalDay, lastDayOfTargetMonth)`.
The time-of-day components are never touched. -/
def addMonthsClamped (date : CivilDate) (monthsToAdd : Int) : CivilDate :=
  let originalDay := date.day
  let targetMonth := date.monthIndex + monthsToAdd
  let lastDayOfTargetMonth := monthLen targetMonth
  ⟨targetMonth, min originalDay lastDayOfTargetMonth, date.todMs⟩

/-- The raw month count of `calculateBreakdown`:
`(now.getFullYear() - start.getFullYear()) * 12 +
 (now.getMonth() - start.getMonth())`, which is the difference of
month indices. -/
def totalMonths (start now : CivilDate) : Int :=
  now.monthIndex - start.monthIndex

/-- The adjusted month count of `calculateBreakdown`: decremented by
one exactly when the candidate anchor overshoots `now`. -/
def adjustedMonths (start now : CivilDate) : Int :=
  let tm := totalMonths start now
  if now.getTime < (addMonthsClamped start tm).getTime then tm - 1 else tm

/-- The anchor used for the residual computation, after the possible
decrement. -/
def finalAnchor (start now : CivilDate) : CivilDate :=
  addMonthsClamped start (adjustedMonths start now)

/-- `calculateBreakdown` from the source.  The mutation
`anchor.setDate(anchor.getDate() + days)` advances the anchor by
exactly `days * dayMs` milliseconds (day counts are exact in this
fixed-offset model, including month rollover), and likewise
`setHours`/`setMinutes` advance it by whole hours/minutes, so the
mutated anchor is tracked through its `getTime` value. -/
def calculateBreakdown (startDate now : CivilDate) : TimeBreakdown :=
  if now.getTime ≤ startDate.getTime then zeroBreakdown
  else
    let adjustedTotalMonths := adjustedMonths startDate now
    let years := adjustedTotalMonths.fdiv 12
    let months := adjustedTotalMonths.tmod 12
    let anchor0 := (finalAnchor startDate now).getTime
    let remainingMs0 := now.getTime - anchor0
    let days := remainingMs0.fdiv dayMs
    let anchor1 := anchor0 + days * dayMs
    let remainingMs1 := now.getTime - anchor1
    let hours := remainingMs1.fdiv hourMs
    let anchor2 := anchor1 + hours * hourMs
    let remainingMs2 := now.getTime - anchor2
    let minutes := remainingMs2.fdiv minuteMs
    let anchor3 := anchor2 + minutes * minuteMs
    let remainingMs3 := now.getTime - anchor3
    let seconds := remainingMs3.fdiv 1000
    ⟨years, months, days, hours, minutes, seconds⟩

/-- `BREAK_GROUND_DATE`: 2011-11-09T00:00:00 in the fixed -05:00 frame. -/
def BREAK_GROUND_DATE : CivilDate := mkDate 2011 10 9 0 0 0

/-- `PROJECTED_OPEN_DATE`: 2020-12-31T00:00:00 in the fixed -05:00 frame. -/
def PROJECTED_OPEN_DATE : CivilDate := mkDate 2020 11 31 0 0 0

/-- `PLANNED_DURATION_MS` from the source. -/
def PLANNED_DURATION_MS : Int :=
  PROJECTED_OPEN_DATE.getTime - BREAK_GROUND_DATE.getTime

/-- `calculateOverrunPercent` generalised over the two module-level
constants it reads (`PLANNED_DURATION_MS` and the break-ground epoch
milliseconds); the division is exact rational arithmetic. -/
def overrunPercentWith (plannedMs startMs nowMs : Int) : ℚ :=
  if plannedMs ≤ 0 then 0
  else
    let totalElapsed := nowMs - startMs
    let overrunMs := totalElapsed - plannedMs
    if overrunMs ≤ 0 then 0
    else ((overrunMs : ℚ) / (plannedMs : ℚ)) * 100

/-- `calculateOverrunPercent` from the source, reading the fixed
reference constants. -/
def calculateOverrunPercent (now : CivilDate) : ℚ :=
  overrunPercentWith PLANNED_DURATION_MS BREAK_GROUND_DATE.getTime now.getTime

/-! ### Calendar arithmetic lemmas -/

theorem monthLength_bounds (y : Int) (m : Nat) :
    28 ≤ monthLength y m ∧ monthLength y m ≤ 31 := by
  rcases m with _|_|_|_|_|_|_|_|_|_|_|m <;>
    simp only [monthLength] <;> first | (split <;> omega) | omega

theorem monthLen_bounds (mi : Int) : 28 ≤ monthLen mi ∧ monthLen mi ≤ 31 := by
  have h := monthLength_bounds (mi / 12) (mi % 12).toNat
  unfold monthLen
  omega

theorem monthOffset_twelve (y : Int) : monthOffset y 12 = daysInYear y := by
  by_cases h : isLeap y <;>
    simp [monthOffset, monthLength, daysInYear, h]

theorem yearStartDay_succ (y : Int) :
    yearStartDay (y + 1) = yearStartDay y + daysInYear y := by
  rcases lt_trichotomy y 1969 with hy | hy | hy
  · have h1 : ¬ 1970 ≤ y + 1 := by omega
    have h2 : ¬ 1970 ≤ y := by omega
    have hn : (1970 - y).toNat = (1969 - y).toNat + 1 := by omega
    rw [yearStartDay, yearStartDay, if_neg h1, if_neg h2, hn, downDays]
    have hy' : (1969 : Int) - ((1969 - y).toNat : Int) = y := by omega
    rw [hy']
    have h3 : (1970 : Int) - (y + 1) = 1969 - y := by ring
    rw [h3]
    ring
  · subst hy
    norm_num [yearStartDay, downDays, upDays, daysInYear, isLeap]
  · have h1 : 1970 ≤ y + 1 := by omega
    have h2 : 1970 ≤ y := by omega
    have hn : (y + 1 - 1970).toNat = (y - 1970).toNat + 1 := by omega
    rw [yearStartDay, yearStartDay, if_pos h1, if_pos h2, hn, upDays]
    have hy' : (1970 : Int) + ((y - 1970).toNat : Int) = y := by omega
    rw [hy']

theorem monthStartDay_succ (mi : Int) :
    monthStartDay (mi + 1) = monthStartDay mi + monthLen mi := by
  have hmod : 0 ≤ mi % 12 ∧ mi % 12 < 12 :=
    ⟨Int.emod_nonneg mi (by norm_num), Int.emod_lt_of_pos mi (by norm_num)⟩
  have hdm : 12 * (mi / 12) + mi % 12 = mi := Int.ediv_add_emod mi 12
  by_cases hm : mi % 12 = 11
  · have hq : (mi + 1) / 12 = mi / 12 + 1 ∧ (mi + 1) % 12 = 0 := by
      have := Int.ediv_emod_unique (a := mi + 1) (b := 12)
        (q := mi / 12 + 1) (r := 0) (by norm_num)
      exact this.mpr (by omega)
    rw [monthStartDay, monthStartDay, monthLen, hq.1, hq.2, hm]
    have h11 : ((11 : Int)).toNat = 11 := rfl
    rw [h11]
    have h0 : ((0 : Int)).toNat = 0 := rfl
    rw [h0]
    have h12 := monthOffset_twelve (mi / 12)
    rw [yearStartDay_succ]
    simp only [monthOffset] at h12 ⊢
    omega
  · have hq : (mi + 1) / 12 = mi / 12 ∧ (mi + 1) % 12 = mi % 12 + 1 := by
      have := Int.ediv_emod_unique (a := mi + 1) (b := 12)
        (q := mi / 12) (r := mi % 12 + 1) (by norm_num)
      exact this.mpr (by omega)
    rw [monthStartDay, monthStartDay, monthLen, hq.1, hq.2]
    have hn : (mi % 12 + 1).toNat = (mi % 12).toNat + 1 := by omega
    rw [hn, monthOffset]
    ring

theorem monthStartDay_mono {mi mj : Int} (h : mi ≤ mj) :
    monthStartDay mi ≤ monthStartDay mj := by
  obtain ⟨k, hk⟩ : ∃ k : Nat, mj = mi + k := ⟨(mj - mi).toNat, by omega⟩
  subst hk
  clear h
  induction k with
  | zero => simp
  | succ k ih =>
      have hstep := monthStartDay_succ (mi + k)
      have hlen := monthLen_bounds (mi + k)
      have hcast : mi + ((k + 1 : Nat) : Int) = (mi + k) + 1 := by
        push_cast
        ring
      rw [hcast]
      omega

theorem monthStartDay_succ_le {mi mj : Int} (h : mi < mj) :
    monthStartDay mi + monthLen mi ≤ monthStartDay mj := by
  have h1 : mi + 1 ≤ mj := h
  have h2 := monthStartDay_mono h1
  have hstep := monthStartDay_succ mi
  omega

/-! ### Date-time bounds -/

theorem dayMs_pos : (0 : Int) < dayMs := by norm_num [dayMs]

theorem getTime_lower {d : CivilDate} (h : d.Valid) :
    monthStartDay d.monthIndex * dayMs ≤ d.getTime := by
  obtain ⟨h1, _, h3, _⟩ := h
  unfold CivilDate.getTime
  nlinarith [dayMs_pos]

theorem getTime_upper {d : CivilDate} (h : d.Valid) :
    d.getTime < monthStartDay (d.monthIndex + 1) * dayMs := by
  obtain ⟨_, h2, _, h4⟩ := h
  have hstep := monthStartDay_succ d.monthIndex
  unfold CivilDate.getTime
  nlinarith [dayMs_pos]

theorem getTime_lt_of_month_lt {a b : CivilDate} (ha : a.Valid) (hb : b.Valid)
    (h : a.monthIndex < b.monthIndex) : a.getTime < b.getTime := by
  have h1 := getTime_upper ha
  have h2 := getTime_lower hb
  have h3 : monthStartDay (a.monthIndex + 1) ≤ monthStartDay b.monthIndex :=
    monthStartDay_mono h
  have h4 : monthStartDay (a.monthIndex + 1) * dayMs ≤
      monthStartDay b.monthIndex * dayMs := by
    have := dayMs_pos
    nlinarith
  omega

theorem month_le_of_getTime_le {a b : CivilDate} (ha : a.Valid) (hb : b.Valid)
    (h : a.getTime ≤ b.getTime) : a.monthIndex ≤ b.monthIndex := by
  by_contra hc
  have := getTime_lt_of_month_lt hb ha (by omega)
  omega

theorem addMonthsClamped_valid {d : CivilDate} (h : d.Valid) (k : Int) :
    (addMonthsClamped d k).Valid := by
  obtain ⟨h1, h2, h3, h4⟩ := h
  have hb := monthLen_bounds (d.monthIndex + k)
  exact ⟨by simp [addMonthsClamped]; omega,
    by simp [addMonthsClamped], h3, h4⟩

theorem addMonthsClamped_monthIndex (d : CivilDate) (k : Int) :
    (addMonthsClamped d k).monthIndex = d.monthIndex + k := rfl

theorem addMonthsClamped_todMs (d : CivilDate) (k : Int) :
    (addMonthsClamped d k).todMs = d.todMs := rfl

theorem addMonthsClamped_zero {d : CivilDate} (h : d.Valid) :
    addMonthsClamped d 0 = d := by
  obtain ⟨h1, h2, h3, h4⟩ := h
  cases d with
  | mk mi day tod =>
      show (⟨mi + 0, min day (monthLen (mi + 0)), tod⟩ : CivilDate) =
        ⟨mi, day, tod⟩
      rw [add_zero, min_eq_left h2]

/-! ### Anchor lemmas -/

theorem addMonthsClamped_getTime (d : CivilDate) (k : Int) :
    (addMonthsClamped d k).getTime =
      (monthStartDay (d.monthIndex + k) +
        min d.day (monthLen (d.monthIndex + k)) - 1) * dayMs + d.todMs := rfl

theorem totalMonths_nonneg {s n : CivilDate} (hs : s.Valid) (hn : n.Valid)
    (h : s.getTime < n.getTime) : 0 ≤ totalMonths s n := by
  have := month_le_of_getTime_le hs hn (le_of_lt h)
  unfold totalMonths
  omega

theorem totalMonths_pos_of_decrement {s n : CivilDate} (hs : s.Valid)
    (hn : n.Valid) (h : s.getTime < n.getTime)
    (hd : n.getTime < (addMonthsClamped s (totalMonths s n)).getTime) :
    1 ≤ totalMonths s n := by
  have h0 := totalMonths_nonneg hs hn h
  by_contra hc
  have htm : totalMonths s n = 0 := by omega
  rw [htm, addMonthsClamped_zero hs] at hd
  omega

theorem adjustedMonths_nonneg {s n : CivilDate} (hs : s.Valid) (hn : n.Valid)
    (h : s.getTime < n.getTime) : 0 ≤ adjustedMonths s n := by
  simp only [adjustedMonths]
  split
  · next hd => have := totalMonths_pos_of_decrement hs hn h hd; omega
  · next hd => exact totalMonths_nonneg hs hn h

theorem finalAnchor_le {s n : CivilDate} (hs : s.Valid) (hn : n.Valid)
    (h : s.getTime < n.getTime) : (finalAnchor s n).getTime ≤ n.getTime := by
  simp only [finalAnchor, adjustedMonths]
  split
  · next hd =>
      have htm := totalMonths_pos_of_decrement hs hn h hd
      have hmi : (addMonthsClamped s (totalMonths s n - 1)).monthIndex <
          n.monthIndex := by
        rw [addMonthsClamped_monthIndex]
        unfold totalMonths at htm ⊢
        omega
      exact le_of_lt
        (getTime_lt_of_month_lt (addMonthsClamped_valid hs _) hn hmi)
  · next hd => omega

theorem gap_lt {s n : CivilDate} (hs : s.Valid) (hn : n.Valid)
    (h : s.getTime < n.getTime) :
    n.getTime - (finalAnchor s n).getTime < 31 * dayMs := by
  have hdayd := monthLen_bounds s.monthIndex
  have hday31 : s.day ≤ 31 := by
    obtain ⟨_, h2, _, _⟩ := hs
    omega
  simp only [finalAnchor, adjustedMonths]
  split
  · next hd =>
      have htm := totalMonths_pos_of_decrement hs hn h hd
      set P := s.monthIndex + (totalMonths s n - 1) with hP
      have hsucc : monthStartDay (P + 1) = monthStartDay P + monthLen P :=
        monthStartDay_succ P
      have hC : s.monthIndex + totalMonths s n = P + 1 := by rw [hP]; ring
      have hdiff : (addMonthsClamped s (totalMonths s n)).getTime -
          (addMonthsClamped s (totalMonths s n - 1)).getTime =
          (monthStartDay (P + 1) + min s.day (monthLen (P + 1)) -
            monthStartDay P - min s.day (monthLen P)) * dayMs := by
        rw [addMonthsClamped_getTime, addMonthsClamped_getTime, hC]
        ring
      have hbP := monthLen_bounds P
      have hbC := monthLen_bounds (P + 1)
      have hcoef : monthStartDay (P + 1) + min s.day (monthLen (P + 1)) -
          monthStartDay P - min s.day (monthLen P) ≤ 31 := by
        omega
      have hmul : (monthStartDay (P + 1) + min s.day (monthLen (P + 1)) -
          monthStartDay P - min s.day (monthLen P)) * dayMs ≤ 31 * dayMs := by
        have := dayMs_pos
        nlinarith
      linarith
  · next hd =>
      have hup := getTime_upper hn
      have hlo : monthStartDay
          ((addMonthsClamped s (totalMonths s n)).monthIndex) * dayMs ≤
          (addMonthsClamped s (totalMonths s n)).getTime :=
        getTime_lower (addMonthsClamped_valid hs _)
      have hmi : (addMonthsClamped s (totalMonths s n)).monthIndex =
          n.monthIndex := by
        rw [addMonthsClamped_monthIndex]
        unfold totalMonths
        ring
      rw [hmi] at hlo
      have hsucc := monthStartDay_succ n.monthIndex
      have hb := monthLen_bounds n.monthIndex
      have hmul : monthStartDay (n.monthIndex + 1) * dayMs =
          monthStartDay n.monthIndex * dayMs + monthLen n.monthIndex * dayMs := by
        rw [hsucc]; ring
      have hlen : monthLen n.monthIndex * dayMs ≤ 31 * dayMs := by
        have := dayMs_pos
        nlinarith
      linarith

/-! ### Peeling arithmetic -/

/-- The residual day/hour/minute/second extraction performed by the
peel-and-advance loop, expressed on the millisecond gap (each advance
of the anchor subtracts exactly the peeled amount from the gap). -/
def peelUnits (remainingMs0 : Int) : Int × Int × Int × Int :=
  let days := remainingMs0.fdiv dayMs
  let remainingMs1 := remainingMs0 - days * dayMs
  let hours := remainingMs1.fdiv hourMs
  let remainingMs2 := remainingMs1 - hours * hourMs
  let minutes := remainingMs2.fdiv minuteMs
  let remainingMs3 := remainingMs2 - minutes * minuteMs
  let seconds := remainingMs3.fdiv 1000
  (days, hours, minutes, seconds)

theorem fdiv_step {r b k : Int} (hb : 0 < b) (h0 : 0 ≤ r) (hk : r < k * b) :
    0 ≤ r.fdiv b ∧ r.fdiv b < k ∧ 0 ≤ r - r.fdiv b * b ∧
      r - r.fdiv b * b < b := by
  rw [Int.fdiv_eq_ediv _ (le_of_lt hb)]
  have h1 : 0 ≤ r / b := Int.ediv_nonneg h0 (le_of_lt hb)
  have h2 : r / b < k := Int.ediv_lt_of_lt_mul hb hk
  have h3 := Int.ediv_add_emod r b
  have h4 : 0 ≤ r % b := Int.emod_nonneg r (ne_of_gt hb)
  have h5 := Int.emod_lt_of_pos r hb
  have h6 : r - r / b * b = r % b := by linarith
  exact ⟨h1, h2, by rw [h6]; exact h4, by rw [h6]; exact h5⟩

theorem peelUnits_bounds (g : Int) (h0 : 0 ≤ g) (h31 : g < 31 * dayMs) :
    0 ≤ (peelUnits g).1 ∧ (peelUnits g).1 < 31 ∧
    0 ≤ (peelUnits g).2.1 ∧ (peelUnits g).2.1 < 24 ∧
    0 ≤ (peelUnits g).2.2.1 ∧ (peelUnits g).2.2.1 < 60 ∧
    0 ≤ (peelUnits g).2.2.2 ∧ (peelUnits g).2.2.2 < 60 ∧
    0 ≤ g - ((peelUnits g).1 * dayMs + (peelUnits g).2.1 * hourMs +
      (peelUnits g).2.2.1 * minuteMs + (peelUnits g).2.2.2 * 1000) ∧
    g - ((peelUnits g).1 * dayMs + (peelUnits g).2.1 * hourMs +
      (peelUnits g).2.2.1 * minuteMs + (peelUnits g).2.2.2 * 1000) < 1000 := by
  simp only [peelUnits]
  have hd := fdiv_step (k := 31) (show (0:Int) < dayMs by norm_num [dayMs])
    h0 h31
  have hdayhour : dayMs = 24 * hourMs := by norm_num [dayMs, hourMs]
  have hh := fdiv_step (k := 24) (show (0:Int) < hourMs by norm_num [hourMs])
    hd.2.2.1 (by rw [← hdayhour]; exact hd.2.2.2)
  have hhourmin : hourMs = 60 * minuteMs := by norm_num [hourMs, minuteMs]
  have hm := fdiv_step (k := 60)
    (show (0:Int) < minuteMs by norm_num [minuteMs])
    hh.2.2.1 (by rw [← hhourmin]; exact hh.2.2.2)
  have hminsec : minuteMs = 60 * 1000 := by norm_num [minuteMs]
  have hsec := fdiv_step (k := 60) (show (0:Int) < 1000 by norm_num)
    hm.2.2.1 (by rw [← hminsec]; exact hm.2.2.2)
  refine ⟨hd.1, hd.2.1, hh.1, hh.2.1, hm.1, hm.2.1, hsec.1, hsec.2.1, ?_, ?_⟩
  · linarith [hsec.2.2.1]
  · linarith [hsec.2.2.2]

theorem calculateBreakdown_eq {s n : CivilDate}
    (h : ¬ n.getTime ≤ s.getTime) :
    calculateBreakdown s n =
      ⟨(adjustedMonths s n).fdiv 12, (adjustedMonths s n).tmod 12,
       (peelUnits (n.getTime - (finalAnchor s n).getTime)).1,
       (peelUnits (n.getTime - (finalAnchor s n).getTime)).2.1,
       (peelUnits (n.getTime - (finalAnchor s n).getTime)).2.2.1,
       (peelUnits (n.getTime - (finalAnchor s n).getTime)).2.2.2⟩ := by
  simp only [calculateBreakdown, peelUnits, if_neg h]
  simp only [TimeBreakdown.mk.injEq]
  refine ⟨trivial, trivial, ?_, ?_, ?_, ?_⟩
  all_goals (congr 1; ring_nf)

/-! ### Claim theorems -/

/-- C2: for every pair of instants with `now` at or before the reference
start instant (`now.getTime ≤ start.getTime`, the JavaScript comparison
`now <= startDate`), `calculateBreakdown` returns the breakdown whose six
fields are all exactly 0. -/
theorem breakdown_zero_of_now_le_start (s n : CivilDate)
    (h : n.getTime ≤ s.getTime) : calculateBreakdown s n = zeroBreakdown := by
  simp only [calculateBreakdown, if_pos h]

/-- Witness for C2 at `start = now = 1970-01-01`. -/
theorem breakdown_zero_of_now_le_start_witness :
    (mkDate 1970 0 1 0 0 0).getTime ≤ (mkDate 1970 0 1 0 0 0).getTime ∧
    calculateBreakdown (mkDate 1970 0 1 0 0 0) (mkDate 1970 0 1 0 0 0) =
      zeroBreakdown :=
  ⟨by decide, breakdown_zero_of_now_le_start _ _ (by decide)⟩

/-- C1 (amended): for all valid instants, every field of the returned
breakdown is bounded: `years ≥ 0`, `months ∈ [0, 11]`, `hours ∈ [0, 23]`,
`minutes, seconds ∈ [0, 59]`, and `days ∈ [0, 30]`.  The day bound comes
from calendar arithmetic (the gap to the next candidate anchor), not from
the anchor month length: day-clamping can make `days` exceed
`days-in-anchor-month - 1` (see the counterexample). -/
theorem breakdown_fields_bounded {s n : CivilDate} (hs : s.Valid)
    (hn : n.Valid) :
    0 ≤ (calculateBreakdown s n).years ∧
    0 ≤ (calculateBreakdown s n).months ∧
      (calculateBreakdown s n).months ≤ 11 ∧
    0 ≤ (calculateBreakdown s n).days ∧ (calculateBreakdown s n).days ≤ 30 ∧
    0 ≤ (calculateBreakdown s n).hours ∧
      (calculateBreakdown s n).hours ≤ 23 ∧
    0 ≤ (calculateBreakdown s n).minutes ∧
      (calculateBreakdown s n).minutes ≤ 59 ∧
    0 ≤ (calculateBreakdown s n).seconds ∧
      (calculateBreakdown s n).seconds ≤ 59 := by
  by_cases hle : n.getTime ≤ s.getTime
  · simp only [calculateBreakdown, if_pos hle, zeroBreakdown]
    norm_num
  · have hlt : s.getTime < n.getTime := by omega
    rw [calculateBreakdown_eq hle]
    dsimp only
    have hadj := adjustedMonths_nonneg hs hn hlt
    have h0 : 0 ≤ n.getTime - (finalAnchor s n).getTime := by
      have := finalAnchor_le hs hn hlt
      omega
    have h31 := gap_lt hs hn hlt
    obtain ⟨hd1, hd2, hh1, hh2, hm1, hm2, hs1, hs2, _, _⟩ :=
      peelUnits_bounds _ h0 h31
    have hy : 0 ≤ (adjustedMonths s n).fdiv 12 := by
      rw [Int.fdiv_eq_ediv _ (by norm_num)]
      exact Int.ediv_nonneg hadj (by norm_num)
    have hmo : 0 ≤ (adjustedMonths s n).tmod 12 ∧
        (adjustedMonths s n).tmod 12 ≤ 11 := by
      rw [Int.tmod_eq_emod hadj (by norm_num)]
      have h1 := Int.emod_nonneg (adjustedMonths s n)
        (show (12 : Int) ≠ 0 by norm_num)
      have h2 := Int.emod_lt_of_pos (adjustedMonths s n)
        (show (0 : Int) < 12 by norm_num)
      omega
    exact ⟨hy, hmo.1, hmo.2, hd1, by omega, hh1, by omega, hm1, by omega,
      hs1, by omega⟩

/-- Witness for C1 at `start` = 1970-01-31, `now` = 1970-03-01 12:00. -/
theorem breakdown_fields_bounded_witness :
    (mkDate 1970 0 31 0 0 0).Valid ∧ (mkDate 1970 2 1 12 0 0).Valid ∧
    (0 ≤ (calculateBreakdown (mkDate 1970 0 31 0 0 0)
        (mkDate 1970 2 1 12 0 0)).years ∧
     0 ≤ (calculateBreakdown (mkDate 1970 0 31 0 0 0)
        (mkDate 1970 2 1 12 0 0)).months ∧
      (calculateBreakdown (mkDate 1970 0 31 0 0 0)
        (mkDate 1970 2 1 12 0 0)).months ≤ 11 ∧
     0 ≤ (calculateBreakdown (mkDate 1970 0 31 0 0 0)
        (mkDate 1970 2 1 12 0 0)).days ∧
      (calculateBreakdown (mkDate 1970 0 31 0 0 0)
        (mkDate 1970 2 1 12 0 0)).days ≤ 30 ∧
     0 ≤ (calculateBreakdown (mkDate 1970 0 31 0 0 0)
        (mkDate 1970 2 1 12 0 0)).hours ∧
      (calculateBreakdown (mkDate 1970 0 31 0 0 0)
        (mkDate 1970 2 1 12 0 0)).hours ≤ 23 ∧
     0 ≤ (calculateBreakdown (mkDate 1970 0 31 0 0 0)
        (mkDate 1970 2 1 12 0 0)).minutes ∧
      (calculateBreakdown (mkDate 1970 0 31 0 0 0)
        (mkDate 1970 2 1 12 0 0)).minutes ≤ 59 ∧
     0 ≤ (calculateBreakdown (mkDate 1970 0 31 0 0 0)
        (mkDate 1970 2 1 12 0 0)).seconds ∧
      (calculateBreakdown (mkDate 1970 0 31 0 0 0)
        (mkDate 1970 2 1 12 0 0)).seconds ≤ 59) :=
  ⟨by decide, by decide, breakdown_fields_bounded (by decide) (by decide)⟩

/-- Counterexample to C1 as stated: with `start` = 2021-01-31 00:00 and
`now` = 2021-03-30 23:00 the anchor is 2021-02-28 (February 2021, 28
days), yet `days = 30 > 28 - 1`, so the day field is not bounded by
days-in-the-anchor-month minus one. -/
theorem breakdown_day_bound_counterexample :
    (mkDate 2021 0 31 0 0 0).Valid ∧ (mkDate 2021 2 30 23 0 0).Valid ∧
    (mkDate 2021 0 31 0 0 0).getTime < (mkDate 2021 2 30 23 0 0).getTime ∧
    (calculateBreakdown (mkDate 2021 0 31 0 0 0)
      (mkDate 2021 2 30 23 0 0)).days = 30 ∧
    monthLen ((finalAnchor (mkDate 2021 0 31 0 0 0)
      (mkDate 2021 2 30 23 0 0)).monthIndex) = 28 ∧
    ¬ ((calculateBreakdown (mkDate 2021 0 31 0 0 0)
        (mkDate 2021 2 30 23 0 0)).days ≤
      monthLen ((finalAnchor (mkDate 2021 0 31 0 0 0)
        (mkDate 2021 2 30 23 0 0)).monthIndex) - 1) := by
  decide

/-- C5: for valid instants with `now > start`, the month-count decrement
is applied exactly when the candidate anchor
`addMonthsClamped start (totalMonths start now)` lands strictly after
`now`; the adjustment is at most one decrement; and the recomputed anchor
satisfies `anchor ≤ now`. -/
theorem decrement_iff_overshoot {s n : CivilDate} (hs : s.Valid)
    (hn : n.Valid) (h : s.getTime < n.getTime) :
    (adjustedMonths s n = totalMonths s n - 1 ↔
      n.getTime < (addMonthsClamped s (totalMonths s n)).getTime) ∧
    (adjustedMonths s n = totalMonths s n ∨
      adjustedMonths s n = totalMonths s n - 1) ∧
    (finalAnchor s n).getTime ≤ n.getTime := by
  refine ⟨⟨?_, ?_⟩, ?_, finalAnchor_le hs hn h⟩
  · intro he
    by_contra hc
    simp only [adjustedMonths, if_neg hc] at he
    omega
  · intro hd
    simp only [adjustedMonths, if_pos hd]
  · simp only [adjustedMonths]
    split
    · exact Or.inr rfl
    · exact Or.inl rfl

/-- Witness for C5 at `start` = 1970-01-31, `now` = 1970-03-01 (a case
where the candidate anchor 1970-02-28 + clamping forces no decrement;
the overshoot condition is decidable either way). -/
theorem decrement_iff_overshoot_witness :
    (mkDate 1970 0 31 0 0 0).Valid ∧ (mkDate 1970 2 1 0 0 0).Valid ∧
    (mkDate 1970 0 31 0 0 0).getTime < (mkDate 1970 2 1 0 0 0).getTime ∧
    ((adjustedMonths (mkDate 1970 0 31 0 0 0) (mkDate 1970 2 1 0 0 0) =
        totalMonths (mkDate 1970 0 31 0 0 0) (mkDate 1970 2 1 0 0 0) - 1 ↔
      (mkDate 1970 2 1 0 0 0).getTime <
        (addMonthsClamped (mkDate 1970 0 31 0 0 0)
          (totalMonths (mkDate 1970 0 31 0 0 0)
            (mkDate 1970 2 1 0 0 0))).getTime) ∧
     (adjustedMonths (mkDate 1970 0 31 0 0 0) (mkDate 1970 2 1 0 0 0) =
        totalMonths (mkDate 1970 0 31 0 0 0) (mkDate 1970 2 1 0 0 0) ∨
      adjustedMonths (mkDate 1970 0 31 0 0 0) (mkDate 1970 2 1 0 0 0) =
        totalMonths (mkDate 1970 0 31 0 0 0) (mkDate 1970 2 1 0 0 0) - 1) ∧
     (finalAnchor (mkDate 1970 0 31 0 0 0)
        (mkDate 1970 2 1 0 0 0)).getTime ≤
       (mkDate 1970 2 1 0 0 0).getTime) :=
  ⟨by decide, by decide, by decide,
    decrement_iff_overshoot (by decide) (by decide) (by decide)⟩

/-- C6: for valid instants with `now > start`, advancing `start` by
`years * 12 + months` calendar months with clamped day arithmetic and
then by the `days`, `hours`, `minutes` and `seconds` of the breakdown
lands at most one second (strictly less than 1000 ms) before `now`. -/
theorem reconstruction_within_one_second {s n : CivilDate} (hs : s.Valid)
    (hn : n.Valid) (h : s.getTime < n.getTime) :
    0 ≤ n.getTime -
      ((addMonthsClamped s ((calculateBreakdown s n).years * 12 +
          (calculateBreakdown s n).months)).getTime +
        (calculateBreakdown s n).days * dayMs +
        (calculateBreakdown s n).hours * hourMs +
        (calculateBreakdown s n).minutes * minuteMs +
        (calculateBreakdown s n).seconds * 1000) ∧
    n.getTime -
      ((addMonthsClamped s ((calculateBreakdown s n).years * 12 +
          (calculateBreakdown s n).months)).getTime +
        (calculateBreakdown s n).days * dayMs +
        (calculateBreakdown s n).hours * hourMs +
        (calculateBreakdown s n).minutes * minuteMs +
        (calculateBreakdown s n).seconds * 1000) < 1000 := by
  have hle : ¬ n.getTime ≤ s.getTime := by omega
  rw [calculateBreakdown_eq hle]
  dsimp only
  have hadj := adjustedMonths_nonneg hs hn h
  have hsum : (adjustedMonths s n).fdiv 12 * 12 +
      (adjustedMonths s n).tmod 12 = adjustedMonths s n := by
    rw [Int.fdiv_eq_ediv _ (by norm_num),
      Int.tmod_eq_emod hadj (by norm_num)]
    omega
  rw [hsum]
  have hanch : addMonthsClamped s (adjustedMonths s n) = finalAnchor s n :=
    rfl
  rw [hanch]
  have h0 : 0 ≤ n.getTime - (finalAnchor s n).getTime := by
    have := finalAnchor_le hs hn h
    omega
  have h31 := gap_lt hs hn h
  obtain ⟨_, _, _, _, _, _, _, _, hr1, hr2⟩ := peelUnits_bounds _ h0 h31
  constructor
  · linarith
  · linarith

/-- Witness for C6 at `start` = 1970-01-31, `now` = 1970-03-01 12:30:45. -/
theorem reconstruction_within_one_second_witness :
    (mkDate 1970 0 31 0 0 0).Valid ∧ (mkDate 1970 2 1 12 30 45).Valid ∧
    (mkDate 1970 0 31 0 0 0).getTime < (mkDate 1970 2 1 12 30 45).getTime ∧
    (0 ≤ (mkDate 1970 2 1 12 30 45).getTime -
      ((addMonthsClamped (mkDate 1970 0 31 0 0 0)
          ((calculateBreakdown (mkDate 1970 0 31 0 0 0)
              (mkDate 1970 2 1 12 30 45)).years * 12 +
            (calculateBreakdown (mkDate 1970 0 31 0 0 0)
              (mkDate 1970 2 1 12 30 45)).months)).getTime +
        (calculateBreakdown (mkDate 1970 0 31 0 0 0)
          (mkDate 1970 2 1 12 30 45)).days * dayMs +
        (calculateBreakdown (mkDate 1970 0 31 0 0 0)
          (mkDate 1970 2 1 12 30 45)).hours * hourMs +
        (calculateBreakdown (mkDate 1970 0 31 0 0 0)
          (mkDate 1970 2 1 12 30 45)).minutes * minuteMs +
        (calculateBreakdown (mkDate 1970 0 31 0 0 0)
          (mkDate 1970 2 1 12 30 45)).seconds * 1000) ∧
     (mkDate 1970 2 1 12 30 45).getTime -
      ((addMonthsClamped (mkDate 1970 0 31 0 0 0)
          ((calculateBreakdown (mkDate 1970 0 31 0 0 0)
              (mkDate 1970 2 1 12 30 45)).years * 12 +
            (calculateBreakdown (mkDate 1970 0 31 0 0 0)
              (mkDate 1970 2 1 12 30 45)).months)).getTime +
        (calculateBreakdown (mkDate 1970 0 31 0 0 0)
          (mkDate 1970 2 1 12 30 45)).days * dayMs +
        (calculateBreakdown (mkDate 1970 0 31 0 0 0)
          (mkDate 1970 2 1 12 30 45)).hours * hourMs +
        (calculateBreakdown (mkDate 1970 0 31 0 0 0)
          (mkDate 1970 2 1 12 30 45)).minutes * minuteMs +
        (calculateBreakdown (mkDate 1970 0 31 0 0 0)
          (mkDate 1970 2 1 12 30 45)).seconds * 1000) < 1000) :=
  ⟨by decide, by decide, by decide,
    reconstruction_within_one_second (by decide) (by decide) (by decide)⟩

/-- C7: for `start` = 2020-01-31 00:00:00 and `now` = 2020-03-01
00:00:00, `calculateBreakdown` returns months = 1 and days = 1 (and not
days = 0 or days = 2): clamping lands the anchor on 2020-02-29 because
2020 is a leap year. -/
theorem leap_year_jan31_to_mar1 :
    calculateBreakdown (mkDate 2020 0 31 0 0 0) (mkDate 2020 2 1 0 0 0) =
      ⟨0, 1, 1, 0, 0, 0⟩ ∧
    addMonthsClamped (mkDate 2020 0 31 0 0 0) 1 = ⟨2020 * 12 + 1, 29, 0⟩ := by
  decide

/-- C4: `addMonthsClamped` lands exactly `k` month indices later, keeps
the day of month when it exists in the target month, otherwise clamps to
the last valid day of the target month (leap-year aware: February 2020
has 29 days, February 2021 has 28), and preserves the time-of-day
milliseconds (hence hours, minutes, seconds and milliseconds). -/
theorem addMonthsClamped_spec {d : CivilDate} (k : Int) (hd : d.Valid) :
    (addMonthsClamped d k).monthIndex = d.monthIndex + k ∧
    (d.day ≤ monthLen (d.monthIndex + k) →
      (addMonthsClamped d k).day = d.day) ∧
    (monthLen (d.monthIndex + k) < d.day →
      (addMonthsClamped d k).day = monthLen (d.monthIndex + k)) ∧
    (addMonthsClamped d k).todMs = d.todMs ∧
    (addMonthsClamped d k).Valid ∧
    monthLen (2020 * 12 + 1) = 29 ∧ monthLen (2021 * 12 + 1) = 28 := by
  refine ⟨rfl, ?_, ?_, rfl, addMonthsClamped_valid hd k, by decide, by decide⟩
  · intro hle
    exact min_eq_left hle
  · intro hlt
    exact min_eq_right (le_of_lt hlt)

/-- Witness for C4: adding one month to 2020-01-31 clamps to 2020-02-29. -/
theorem addMonthsClamped_spec_witness :
    (mkDate 2020 0 31 0 0 0).Valid ∧
    ((addMonthsClamped (mkDate 2020 0 31 0 0 0) 1).monthIndex =
        (mkDate 2020 0 31 0 0 0).monthIndex + 1 ∧
     ((mkDate 2020 0 31 0 0 0).day ≤
        monthLen ((mkDate 2020 0 31 0 0 0).monthIndex + 1) →
      (addMonthsClamped (mkDate 2020 0 31 0 0 0) 1).day =
        (mkDate 2020 0 31 0 0 0).day) ∧
     (monthLen ((mkDate 2020 0 31 0 0 0).monthIndex + 1) <
        (mkDate 2020 0 31 0 0 0).day →
      (addMonthsClamped (mkDate 2020 0 31 0 0 0) 1).day =
        monthLen ((mkDate 2020 0 31 0 0 0).monthIndex + 1)) ∧
     (addMonthsClamped (mkDate 2020 0 31 0 0 0) 1).todMs =
        (mkDate 2020 0 31 0 0 0).todMs ∧
     (addMonthsClamped (mkDate 2020 0 31 0 0 0) 1).Valid ∧
     monthLen (2020 * 12 + 1) = 29 ∧ monthLen (2021 * 12 + 1) = 28) :=
  ⟨by decide, addMonthsClamped_spec 1 (by decide)⟩

/-- C3: `calculateOverrunPercent now` equals
`max 0 ((elapsed - planned) / planned * 100)` for the fixed reference
constants; and, generalising the constants the source reads, the
percentage is 0 whenever `planned ≤ 0`, is 0 whenever
`elapsed ≤ planned`, and otherwise is the exact unrounded positive
ratio. -/
theorem overrun_percent_spec :
    (∀ now : CivilDate, calculateOverrunPercent now =
      max 0 ((((now.getTime - BREAK_GROUND_DATE.getTime : Int) : ℚ) -
          (PLANNED_DURATION_MS : ℚ)) / (PLANNED_DURATION_MS : ℚ) * 100)) ∧
    (∀ p s m : Int, p ≤ 0 → overrunPercentWith p s m = 0) ∧
    (∀ p s m : Int, m - s ≤ p → overrunPercentWith p s m = 0) ∧
    (∀ p s m : Int, 0 < p → p < m - s →
      overrunPercentWith p s m = ((m - s - p : Int) : ℚ) / (p : ℚ) * 100) := by
  have hP : (0 : Int) < PLANNED_DURATION_MS := by decide
  refine ⟨?_, ?_, ?_, ?_⟩
  · intro now
    simp only [calculateOverrunPercent, overrunPercentWith,
      if_neg (by omega : ¬ PLANNED_DURATION_MS ≤ 0)]
    have hPQ : (0 : ℚ) < (PLANNED_DURATION_MS : ℚ) := by
      exact_mod_cast hP
    by_cases hov : now.getTime - BREAK_GROUND_DATE.getTime -
        PLANNED_DURATION_MS ≤ 0
    · rw [if_pos hov]
      have hnum : ((now.getTime - BREAK_GROUND_DATE.getTime : Int) : ℚ) -
          (PLANNED_DURATION_MS : ℚ) ≤ 0 := by
        have : ((now.getTime - BREAK_GROUND_DATE.getTime -
            PLANNED_DURATION_MS : Int) : ℚ) ≤ 0 := by
          exact_mod_cast hov
        push_cast at this ⊢
        linarith
      have : (((now.getTime - BREAK_GROUND_DATE.getTime : Int) : ℚ) -
          (PLANNED_DURATION_MS : ℚ)) / (PLANNED_DURATION_MS : ℚ) * 100 ≤
          0 := by
        apply mul_nonpos_of_nonpos_of_nonneg
        · exact div_nonpos_of_nonpos_of_nonneg hnum (le_of_lt hPQ)
        · norm_num
      rw [max_eq_left this]
    · rw [if_neg hov]
      have hnum : 0 ≤ ((now.getTime - BREAK_GROUND_DATE.getTime : Int) : ℚ) -
          (PLANNED_DURATION_MS : ℚ) := by
        have : (0 : ℚ) ≤ ((now.getTime - BREAK_GROUND_DATE.getTime -
            PLANNED_DURATION_MS : Int) : ℚ) := by
          exact_mod_cast (by omega : (0 : Int) ≤ now.getTime -
            BREAK_GROUND_DATE.getTime - PLANNED_DURATION_MS)
        push_cast at this ⊢
        linarith
      have hmax : 0 ≤ (((now.getTime - BREAK_GROUND_DATE.getTime : Int) : ℚ) -
          (PLANNED_DURATION_MS : ℚ)) / (PLANNED_DURATION_MS : ℚ) * 100 := by
        apply mul_nonneg
        · exact div_nonneg hnum (le_of_lt hPQ)
        · norm_num
      rw [max_eq_right hmax]
      push_cast
      ring
  · intro p s m hp
    simp only [overrunPercentWith, if_pos hp]
  · intro p s m hm
    simp only [overrunPercentWith]
    by_cases hp : p ≤ 0
    · rw [if_pos hp]
    · rw [if_neg hp, if_pos (by omega : m - s - p ≤ 0)]
  · intro p s m hp hov
    simp only [overrunPercentWith, if_neg (by omega : ¬ p ≤ 0),
      if_neg (by omega : ¬ m - s - p ≤ 0)]

/-- Witness for C3: the hypothesis-bearing conjuncts at concrete inputs
(planned = -5 → 0; elapsed 3 ≤ planned 10 → 0; planned 10, elapsed 25 →
150 percent). -/
theorem overrun_percent_spec_witness :
    ((-5 : Int) ≤ 0 ∧ overrunPercentWith (-5) 0 7 = 0) ∧
    ((7 : Int) - 0 ≤ 10 ∧ overrunPercentWith 10 0 7 = 0) ∧
    ((0 : Int) < 10 ∧ (10 : Int) < 25 - 0 ∧
      overrunPercentWith 10 0 25 = ((25 - 0 - 10 : Int) : ℚ) / (10 : ℚ) * 100) :=
  ⟨⟨by decide, overrun_percent_spec.2.1 (-5) 0 7 (by decide)⟩,
   ⟨by decide, overrun_percent_spec.2.2.1 10 0 7 (by decide)⟩,
   ⟨by decide, by decide,
     overrun_percent_spec.2.2.2 10 0 25 (by decide) (by decide)⟩⟩

/-- The alternative the spec warns against for C8: computing all four
residual units by independent floor divisions of the single original
gap between `now` and the month-adjusted anchor. -/
def independentUnits (gapMs : Int) : Int × Int × Int × Int :=
  (gapMs.fdiv dayMs, gapMs.fdiv hourMs, gapMs.fdiv minuteMs,
    gapMs.fdiv 1000)

/-- C8: the advance-then-resubtract peeling order is semantically
necessary: there is a pair of valid instants with `now > start` on which
the implemented loop yields a (days, hours, minutes, seconds) quadruple
different from independent floor divisions of the single original gap. -/
theorem peel_order_necessary :
    ∃ s n : CivilDate, s.Valid ∧ n.Valid ∧ s.getTime < n.getTime ∧
      ((calculateBreakdown s n).days, (calculateBreakdown s n).hours,
        (calculateBreakdown s n).minutes,
        (calculateBreakdown s n).seconds) ≠
      independentUnits (n.getTime - (finalAnchor s n).getTime) :=
  ⟨mkDate 1970 0 1 0 0 0, mkDate 1970 0 3 0 0 0, by decide⟩

/-- C9: both calculators are deterministic pure functions: two
invocations on identical inputs return identical results (the embedded
functions read only their arguments and the immutable module
constants). -/
theorem calculators_deterministic (s₁ s₂ n₁ n₂ : CivilDate)
    (hs : s₁ = s₂) (hn : n₁ = n₂) :
    calculateBreakdown s₁ n₁ = calculateBreakdown s₂ n₂ ∧
    calculateOverrunPercent n₁ = calculateOverrunPercent n₂ := by
  subst hs
  subst hn
  exact ⟨rfl, rfl⟩

/-- Witness for C9 at the break-ground constant and a fixed now. -/
theorem calculators_deterministic_witness :
    BREAK_GROUND_DATE = BREAK_GROUND_DATE ∧
    mkDate 2026 9 11 0 0 0 = mkDate 2026 9 11 0 0 0 ∧
    (calculateBreakdown BREAK_GROUND_DATE (mkDate 2026 9 11 0 0 0) =
      calculateBreakdown BREAK_GROUND_DATE (mkDate 2026 9 11 0 0 0) ∧
     calculateOverrunPercent (mkDate 2026 9 11 0 0 0) =
      calculateOverrunPercent (mkDate 2026 9 11 0 0 0)) :=
  ⟨rfl, rfl, calculators_deterministic _ _ _ _ rfl rfl⟩

/-! ### Mutation model

JavaScript `Date` objects are mutable heap objects; `setDate`,
`setMonth`, `setHours` and `setMinutes` mutate in place, and
`new Date(...)` allocates.  To settle the frame property (the argument
dates are never mutated) the two functions are re-traced against an
explicit heap: references are allocation indices, `new` bumps the
allocation counter, and every source mutation is a store update at the
reference the source mutates. -/

structure Heap where
  mem : Nat → CivilDate
  next : Nat

def Heap.read (h : Heap) (r : Nat) : CivilDate := h.mem r

def Heap.write (h : Heap) (r : Nat) (v : CivilDate) : Heap :=
  ⟨fun i => if i = r then v else h.mem i, h.next⟩

def Heap.alloc (h : Heap) (v : CivilDate) : Heap :=
  ⟨fun i => if i = h.next then v else h.mem i, h.next + 1⟩

/-- `addMonthsClamped` traced on the heap: copy the argument
(`new Date(date.getTime())`), mutate only the copy (`setDate(1)`,
`setMonth(m + k)`, the `new Date(y, m + 1, 0)` temporary for the last
day of the target month, `setDate(min(...))`), return the reference of the
copy. -/
def addMonthsClampedH (h : Heap) (date : Nat) (monthsToAdd : Int) :
    Heap × Nat :=
  let nxt := h.next
  let h1 := h.alloc (h.read date)
  let originalDay := (h1.read nxt).day
  let h2 := h1.write nxt
    ⟨(h1.read nxt).monthIndex, 1, (h1.read nxt).todMs⟩
  let h3 := h2.write nxt
    ⟨(h2.read nxt).monthIndex + monthsToAdd, (h2.read nxt).day,
      (h2.read nxt).todMs⟩
  let tmp := h3.next
  let h4 := h3.alloc
    ⟨(h3.read nxt).monthIndex, monthLen (h3.read nxt).monthIndex, 0⟩
  let lastDayOfTargetMonth := (h4.read tmp).day
  let h5 := h4.write nxt
    ⟨(h4.read nxt).monthIndex, min originalDay lastDayOfTargetMonth,
      (h4.read nxt).todMs⟩
  (h5, nxt)

/-- `calculateBreakdown` traced on the heap: `startDate` is copied
(`new Date(startDate.getTime())`), the anchors come from
`addMonthsClampedH`, and the three peel mutations (`setDate`,
`setHours`, `setMinutes`) hit only the anchor object.  `now` is read
but never written. -/
def calculateBreakdownH (h : Heap) (startDate now : Nat) :
    Heap × TimeBreakdown :=
  if (h.read now).getTime ≤ (h.read startDate).getTime then
    (h, zeroBreakdown)
  else
    let st := h.next
    let h1 := h.alloc (h.read startDate)
    let tm := (h1.read now).monthIndex - (h1.read st).monthIndex
    let p2 := addMonthsClampedH h1 st tm
    let h2 := p2.1
    let anchor := p2.2
    let p3 := if (h2.read now).getTime < (h2.read anchor).getTime then
        (addMonthsClampedH h2 st (tm - 1), tm - 1)
      else ((h2, anchor), tm)
    let h3 := p3.1.1
    let anchor2 := p3.1.2
    let adjusted := p3.2
    let years := adjusted.fdiv 12
    let months := adjusted.tmod 12
    let rem0 := (h3.read now).getTime - (h3.read anchor2).getTime
    let days := rem0.fdiv dayMs
    let h4 := h3.write anchor2
      ⟨(h3.read anchor2).monthIndex, (h3.read anchor2).day + days,
        (h3.read anchor2).todMs⟩
    let rem1 := (h4.read now).getTime - (h4.read anchor2).getTime
    let hours := rem1.fdiv hourMs
    let h5 := h4.write anchor2
      ⟨(h4.read anchor2).monthIndex, (h4.read anchor2).day,
        (h4.read anchor2).todMs + hours * hourMs⟩
    let rem2 := (h5.read now).getTime - (h5.read anchor2).getTime
    let minutes := rem2.fdiv minuteMs
    let h6 := h5.write anchor2
      ⟨(h5.read anchor2).monthIndex, (h5.read anchor2).day,
        (h5.read anchor2).todMs + minutes * minuteMs⟩
    let rem3 := (h6.read now).getTime - (h6.read anchor2).getTime
    let seconds := rem3.fdiv 1000
    (h6, ⟨years, months, days, hours, minutes, seconds⟩)

theorem read_write_ne {h : Heap} {r i : Nat} (v : CivilDate) (hne : i ≠ r) :
    (h.write r v).read i = h.read i := by
  simp [Heap.write, Heap.read, hne]

theorem read_alloc_of_lt {h : Heap} {i : Nat} (v : CivilDate)
    (hi : i < h.next) : (h.alloc v).read i = h.read i := by
  show (if i = h.next then v else h.mem i) = h.mem i
  rw [if_neg (by omega)]

theorem addMonthsClampedH_heap_read {h : Heap} (r : Nat) (k : Int)
    {i : Nat} (hi : i < h.next) :
    (addMonthsClampedH h r k).1.read i = h.read i := by
  simp only [addMonthsClampedH]
  rw [read_write_ne _ (show i ≠ h.next by omega),
    read_alloc_of_lt _ (show i < h.next + 1 by omega),
    read_write_ne _ (show i ≠ h.next by omega),
    read_write_ne _ (show i ≠ h.next by omega),
    read_alloc_of_lt _ (show i < h.next by omega)]

theorem write_next (h : Heap) (r : Nat) (v : CivilDate) :
    (h.write r v).next = h.next := rfl

theorem alloc_next (h : Heap) (v : CivilDate) :
    (h.alloc v).next = h.next + 1 := rfl

theorem addMonthsClampedH_ref (h : Heap) (r : Nat) (k : Int) :
    (addMonthsClampedH h r k).2 = h.next := rfl

theorem addMonthsClampedH_next (h : Heap) (r : Nat) (k : Int) :
    (addMonthsClampedH h r k).1.next = h.next + 2 := rfl

theorem calculateBreakdownH_heap_read (h : Heap) (rs rn : Nat) {i : Nat}
    (hi : i < h.next) : (calculateBreakdownH h rs rn).1.read i = h.read i := by
  by_cases hc : (h.read rn).getTime ≤ (h.read rs).getTime
  · simp only [calculateBreakdownH, if_pos hc]
  · simp only [calculateBreakdownH, if_neg hc]
    split
    · dsimp only
      simp only [addMonthsClampedH_ref, addMonthsClampedH_next, alloc_next,
        write_next]
      rw [read_write_ne _ (show i ≠ h.next + 1 + 2 by omega),
        read_write_ne _ (show i ≠ h.next + 1 + 2 by omega),
        read_write_ne _ (show i ≠ h.next + 1 + 2 by omega),
        addMonthsClampedH_heap_read _ _ (show i < h.next + 1 + 2 by omega),
        addMonthsClampedH_heap_read _ _ (show i < h.next + 1 by omega),
        read_alloc_of_lt _ (show i < h.next by omega)]
    · dsimp only
      simp only [addMonthsClampedH_ref, addMonthsClampedH_next, alloc_next,
        write_next]
      rw [read_write_ne _ (show i ≠ h.next + 1 by omega),
        read_write_ne _ (show i ≠ h.next + 1 by omega),
        read_write_ne _ (show i ≠ h.next + 1 by omega),
        addMonthsClampedH_heap_read _ _ (show i < h.next + 1 by omega),
        read_alloc_of_lt _ (show i < h.next by omega)]

/-- C10: argument non-mutation.  In the heap trace, `addMonthsClamped`
leaves its `Date` argument unchanged, and `calculateBreakdown` leaves
both of its `Date` arguments (`startDate` and `now`) unchanged: every
mutation hits a fresh copy, so previously allocated objects (in
particular the two fixed reference constants) are identical before and
after each call. -/
theorem args_not_mutated (h : Heap) (r : Nat) (k : Int) (rs rn : Nat)
    (hr : r < h.next) (hrs : rs < h.next) (hrn : rn < h.next) :
    (addMonthsClampedH h r k).1.read r = h.read r ∧
    (calculateBreakdownH h rs rn).1.read rs = h.read rs ∧
    (calculateBreakdownH h rs rn).1.read rn = h.read rn :=
  ⟨addMonthsClampedH_heap_read r k hr,
    calculateBreakdownH_heap_read h rs rn hrs,
    calculateBreakdownH_heap_read h rs rn hrn⟩

/-- A concrete two-object heap for the C10 witness: object 0 is the
break-ground date, object 1 a later instant. -/
def witnessHeap : Heap :=
  ⟨fun i => if i = 0 then BREAK_GROUND_DATE else mkDate 2026 9 11 0 0 0, 2⟩

/-- Witness for C10 on `witnessHeap` with `r = rs = 0`, `rn = 1`. -/
theorem args_not_mutated_witness :
    (0 < witnessHeap.next ∧ 1 < witnessHeap.next) ∧
    ((addMonthsClampedH witnessHeap 0 1).1.read 0 = witnessHeap.read 0 ∧
     (calculateBreakdownH witnessHeap 0 1).1.read 0 = witnessHeap.read 0 ∧
     (calculateBreakdownH witnessHeap 0 1).1.read 1 = witnessHeap.read 1) :=
  ⟨⟨by decide, by decide⟩,
    args_not_mutated witnessHeap 0 1 0 1 (by decide) (by decide) (by decide)⟩
